import Mathlib

/-!
Verification development for the Financial RAG System repository.

Shallow embedding of the core pipeline:
* `app/services/vector.py`   — metadata sanitization, batched embedding + upsert
* `app/services/document.py` — chunk construction and metadata merging
* `app/services/search.py`   — tenant-filtered retrieval, rerank, context assembly
* `app/services/llm.py`      — generator error containment
* `app/api/v1/chat.py`       — query endpoint error sanitization
* `app/api/v1/ingest.py`     — ingestion pipeline temp-file cleanup
* `app/services/embeddings.py` — embedding-model singleton (and its callers)

Python dynamic values are modelled by the inductive `PyVal`; Python floats are
modelled as rationals (only type tests and truthiness are ever applied to
numbers in the sources — no floating-point arithmetic occurs). Python dicts
are modelled as key-deduplicated association lists (`List (String × PyVal)`)
with first-match `List.lookup`. External collaborators (the embedding model,
the Pinecone index ranking, the Cohere reranker, the Anthropic provider) are
modelled as oracle parameters; raised Python exceptions are modelled with
`Option`/`Except`.
-/

/-- A Python runtime value as it appears in chunk metadata.
`other reprOk repr` stands for a value of any type outside the ones the
sources test for with `isinstance`; `reprOk` records whether `str(value)`
succeeds and `repr` its result when it does. -/
inductive PyVal where
  | pynone : PyVal
  | str (s : String) : PyVal
  | int (n : Int) : PyVal
  | float (q : Rat) : PyVal
  | bool (b : Bool) : PyVal
  | list (elems : List PyVal) : PyVal
  | dict (entries : List (String × PyVal)) : PyVal
  | other (reprOk : Bool) (rep : String) : PyVal

/-- Python truthiness (`if value:`) for the modelled values. -/
def PyVal.truthy : PyVal → Bool
  | .pynone => false
  | .str s => s ≠ ""
  | .int n => n ≠ 0
  | .float q => q ≠ 0
  | .bool b => b
  | .list es => !es.isEmpty
  | .dict kvs => !kvs.isEmpty
  | .other _ _ => true

/-- `isinstance(value, str)` test used inside the list-of-strings check. -/
def PyVal.isStr : PyVal → Bool
  | .str _ => true
  | _ => false

/-- `value is None` test. -/
def PyVal.isNone : PyVal → Bool
  | .pynone => true
  | _ => false

-- `json.dumps`: succeeds on None/str/numbers/bools and (recursively)
-- lists and string-keyed dicts; raises `TypeError` (modelled as `none`) on
-- any other object. The exact rendered text is irrelevant to every claim.
mutual

def jsonDumps : PyVal → Option String
  | .pynone => some "null"
  | .str s => some ("\"" ++ s ++ "\"")
  | .int n => some (toString n)
  | .float q => some (toString q)
  | .bool b => some (if b then "true" else "false")
  | .list es =>
    match jsonDumpsList es with
    | some ss => some ("[" ++ String.intercalate ", " ss ++ "]")
    | none => none
  | .dict kvs =>
    match jsonDumpsEntries kvs with
    | some ss => some ("\x7b" ++ String.intercalate ", " ss ++ "\x7d")
    | none => none
  | .other _ _ => none

def jsonDumpsList : List PyVal → Option (List String)
  | [] => some []
  | v :: vs =>
    match jsonDumps v, jsonDumpsList vs with
    | some s, some ss => some (s :: ss)
    | _, _ => none

def jsonDumpsEntries : List (String × PyVal) → Option (List String)
  | [] => some []
  | (k, v) :: kvs =>
    match jsonDumps v, jsonDumpsEntries kvs with
    | some s, some ss => some (("\"" ++ k ++ "\": " ++ s) :: ss)
    | _, _ => none

end

/-! ## Metadata sanitization (`VectorService._sanitize_metadata`, vector.py 30-87) -/

/-- `exclude_fields` in `_sanitize_metadata`. -/
def excludeFields : List String := ["coordinates", "parent_id", "element_id", "orig_elements"]

/-- `json_fields` in `_sanitize_metadata` (the complex-but-important allowlist). -/
def jsonFields : List String := ["metadata_json"]

/-- One iteration of the `for key, value in metadata.items()` loop body.
`none` means the loop body raised (only possible from `json.dumps`);
`some none` means the field is dropped; `some (some w)` means `sanitized[key] = w`. -/
def sanitizeField (key : String) (v : PyVal) : Option (Option PyVal) :=
  if excludeFields.contains key then some none
  else
    match v with
    | .pynone => some none
    | .str s => some (some (.str s))
    | .int n => some (some (.int n))
    | .float q => some (some (.float q))
    | .bool b => some (some (.bool b))
    | .list es =>
      if es.all PyVal.isStr then some (some (.list es))
      else if jsonFields.contains key then
        match jsonDumps (.list es) with
        | some s => some (some (.str s))
        | none => none
      else some none
    | .dict kvs =>
      if jsonFields.contains key then
        match jsonDumps (.dict kvs) with
        | some s => some (some (.str s))
        | none => none
      else some none
    | .other reprOk rep => if reprOk then some (some (.str rep)) else some none

/-- `VectorService._sanitize_metadata`. Result `none` models the function
raising (a `json.dumps` `TypeError` is not caught by the source). -/
def sanitize_metadata : List (String × PyVal) → Option (List (String × PyVal))
  | [] => some []
  | (k, v) :: rest =>
    match sanitizeField k v with
    | none => none
    | some none => sanitize_metadata rest
    | some (some w) =>
      match sanitize_metadata rest with
      | some out => some ((k, w) :: out)
      | none => none

/-- A value the Pinecone index schema accepts: string, number, boolean,
or list of strings. -/
def isPineconeVal : PyVal → Bool
  | .str _ => true
  | .int _ => true
  | .float _ => true
  | .bool _ => true
  | .list es => es.all PyVal.isStr
  | _ => false

example : sanitize_metadata [("user_id", .str "u1"), ("coordinates", .dict [])]
    = some [("user_id", .str "u1")] := rfl

example : sanitize_metadata [("k", .other true "x")] = some [("k", .str "x")] := rfl

example : sanitize_metadata [("n", .pynone), ("c", .int 3)] = some [("c", .int 3)] := rfl

/-! ## Configuration constants (`app/core/config.py`) -/

def RETRIEVAL_LIMIT : Nat := 50

def RERANK_LIMIT : Nat := 10

def LLM_MODEL : String := "claude-haiku-4-5"

/-- `batch_size = 100` in `VectorService.upsert_chunks`. -/
def batchSize : Nat := 100

/-! ## Chunks and vector records -/

/-- One element of the `chunks` list handed to `VectorService.upsert_chunks`:
a dict with keys `id`, `text`, `metadata` (built by `DocumentService.process_file`). -/
structure Chunk where
  id : String
  text : String
  metadata : List (String × PyVal)

/-- One record sent to `index.upsert`: `{"id": ..., "values": emb, "metadata": sanitized}`.
Embedding vectors are opaque (`List Int`); no arithmetic is ever done on them. -/
structure PRecord where
  id : String
  values : List Int
  metadata : List (String × PyVal)

/-- Calls the adapter issues against the external services. `deleteCall` is in the
index's API surface but is shown never to be issued by the adapter. -/
inductive VEvent where
  | embedCall (texts : List String)
  | upsertCall (records : List PRecord)
  | deleteCall (ids : List String)

def VEvent.isDelete : VEvent → Bool
  | .deleteCall _ => true
  | _ => false

def VEvent.isEmbed : VEvent → Bool
  | .embedCall _ => true
  | _ => false

def VEvent.isUpsert : VEvent → Bool
  | .upsertCall _ => true
  | _ => false

/-- The loop header `for i in range(0, total_chunks, batch_size): batch = chunks[i : i + batch_size]`:
the j-th batch is `chunks[100*j : 100*j + 100]`, and there are `ceil(total/100)` of them. -/
def pybatches (chunks : List Chunk) : List (List Chunk) :=
  (List.range ((chunks.length + (batchSize - 1)) / batchSize)).map
    (fun j => (chunks.drop (batchSize * j)).take batchSize)

/-- The per-batch record construction
(`zip(batch, embeddings)` + `_sanitize_metadata` + append): `none` models a
sanitize error raised mid-batch (before the upsert call is issued).
Like Python's `zip`, a length mismatch truncates. -/
def buildRecords : List Chunk → List (List Int) → Option (List PRecord)
  | [], _ => some []
  | _, [] => some []
  | c :: cs, e :: es =>
    match sanitize_metadata c.metadata with
    | none => none
    | some sm =>
      match buildRecords cs es with
      | some rs => some (⟨c.id, e, sm⟩ :: rs)
      | none => none

/-- One iteration of the batch loop in `upsert_chunks`: embed the batch's texts,
build (sanitized) records, issue the upsert. Returns the calls issued, the
records committed by the index, and the raised error if any.
`embedF` models `self.model.encode` and `upsertF` models whether
`self.index.upsert` raises on the given records. -/
def upsertBatch (embedF : List String → Except String (List (List Int)))
    (upsertF : List PRecord → Option String) (batch : List Chunk) :
    List VEvent × List PRecord × Option String :=
  let texts := batch.map (·.text)
  match embedF texts with
  | .error e => ([.embedCall texts], [], some e)
  | .ok embs =>
    match buildRecords batch embs with
    | none => ([.embedCall texts], [], some "TypeError: Object is not JSON serializable")
    | some recs =>
      match upsertF recs with
      | some e => ([.embedCall texts, .upsertCall recs], [], some e)
      | none => ([.embedCall texts, .upsertCall recs], recs, none)

/-- The batch loop: `except Exception as e: ... raise e` aborts the loop at the
first failing batch; earlier batches' records stay committed. -/
def upsertLoop (embedF : List String → Except String (List (List Int)))
    (upsertF : List PRecord → Option String) :
    List (List Chunk) → List VEvent × List PRecord × Option String
  | [] => ([], [], none)
  | b :: rest =>
    match upsertBatch embedF upsertF b with
    | (evs, recs, some e) => (evs, recs, some e)
    | (evs, recs, none) =>
      let (evs', recs', err') := upsertLoop embedF upsertF rest
      (evs ++ evs', recs ++ recs', err')

/-- `VectorService.upsert_chunks` (vector.py 89-141): early return on an empty
chunk list, otherwise the batch loop over batches of 100.
Returns (calls issued, records committed to the index, raised error). -/
def upsert_chunks (embedF : List String → Except String (List (List Int)))
    (upsertF : List PRecord → Option String) (chunks : List Chunk) :
    List VEvent × List PRecord × Option String :=
  if chunks.isEmpty then ([], [], none)
  else upsertLoop embedF upsertF (pybatches chunks)

/-! ## Document processing (`DocumentService.process_file`, document.py 25-80) -/

/-- `str(value)` as used by the f-string building the chunk id. Only the
scalar cases are ever exercised by the pipeline (`file_id` is a string). -/
def pyStrOf : PyVal → String
  | .pynone => "None"
  | .str s => s
  | .int n => toString n
  | .float q => toString q
  | .bool b => if b then "True" else "False"
  | .list _ => "<list>"
  | .dict _ => "<dict>"
  | .other _ rep => rep

/-- Building a Python dict from an association list in which entries written
EARLIER override entries written later (callers list overriding entries first);
keeps the first occurrence of each key so `List.lookup` agrees with dict lookup. -/
def dedupKeysAux (seen : List String) : List (String × PyVal) → List (String × PyVal)
  | [] => []
  | (k, v) :: rest =>
    if seen.contains k then dedupKeysAux seen rest
    else (k, v) :: dedupKeysAux (k :: seen) rest

def dedupKeys (l : List (String × PyVal)) : List (String × PyVal) :=
  dedupKeysAux [] l

/-- `DocumentService.process_file`, after the external parser and splitter:
`elems` is the list of split chunks as `(page_content, chunk.metadata)` pairs,
`metadata` the caller-supplied dict, `fallbackId` the `uuid4` used when
`file_id` is absent. Mirrors: chunk id `f"{file_id}#chunk{i}"`, dropping
`None`-valued parser metadata, and the merge
`{**chunk_metadata, **metadata, "text": chunk.page_content}` (later keys win,
modelled by listing the overriding entries first and deduplicating). -/
def process_file (fallbackId : String)
    (elems : List (String × List (String × PyVal)))
    (metadata : List (String × PyVal)) : List Chunk :=
  elems.enum.map (fun p =>
    let i := p.1
    let pageContent := p.2.1
    let chunkMeta := (p.2.2).filter (fun kv => !kv.2.isNone)
    let fileIdStr :=
      match List.lookup "file_id" metadata with
      | some v => pyStrOf v
      | none => fallbackId
    let chunkId := fileIdStr ++ "#chunk" ++ toString i
    let merged := dedupKeys ((("text", PyVal.str pageContent) :: metadata) ++ chunkMeta)
    ⟨chunkId, pageContent, merged⟩)

example :
    process_file "fb" [("hello", [("page_number", .int 1), ("coordinates", .pynone)])]
      [("file_id", .str "f1"), ("user_id", .str "u1")]
    = [⟨"f1#chunk0", "hello",
        [("text", .str "hello"), ("file_id", .str "f1"), ("user_id", .str "u1"),
         ("page_number", .int 1)]⟩] := rfl

/-! ## Search and context assembly (`SearchService.get_context`, search.py 27-96) -/

/-- The Pinecone metadata filter `{"user_id": {"$eq": user_id}}` applied to a
record: true iff the stored `user_id` is a string equal to the tenant id. -/
def matchesUser (m : List (String × PyVal)) (userId : String) : Bool :=
  match List.lookup "user_id" m with
  | some (.str s) => s == userId
  | _ => false

/-- `chunk_text = match['metadata'].get('text', '')` followed by
`if chunk_text: chunks.append(chunk_text)`: keep the stored `text` value when
present and truthy (the default `''` is falsy, so an absent field is skipped). -/
def extractChunkText (m : List (String × PyVal)) : Option PyVal :=
  match List.lookup "text" m with
  | some v => if v.truthy then some v else none
  | none => none

/-- `chunks[result.index]` for each rerank result, in order; an out-of-range
index raises `IndexError` (modelled as `none`). -/
def collectAt (chunks : List PyVal) : List Nat → Option (List PyVal)
  | [] => some []
  | i :: is =>
    match chunks.get? i with
    | none => none
    | some v =>
      match collectAt chunks is with
      | some vs => some (v :: vs)
      | none => none

/-- `"\n\n---\n\n".join(final_context_chunks)`: requires every element to be a
string (`TypeError`, modelled as `none`, otherwise). -/
def joinContext : List PyVal → Option (List String)
  | [] => some []
  | .str s :: rest =>
    match joinContext rest with
    | some ss => some (s :: ss)
    | none => none
  | _ => none

def contextSeparator : String := "\n\n---\n\n"

/-- `SearchService.get_context`. External collaborators are oracles:
`rank q l` is the Pinecone similarity ranking of the filtered records for the
query (the index returns the filtered records in score order, `top_k` of them);
`rerank q docs n` is the list of `result.index` values Cohere returns for
`documents=docs, top_n=n`. `none` models the outer `except ... raise`
re-raising an exception; `some ctx` the returned context string. -/
def get_context (rank : String → List PRecord → List PRecord)
    (rerank : String → List PyVal → Nat → List Nat)
    (store : List PRecord) (query : String) (userId : String) : Option String :=
  let ms := (rank query (store.filter (fun r => matchesUser r.metadata userId))).take RETRIEVAL_LIMIT
  if ms.isEmpty then some ""
  else
    let chunks := ms.filterMap (fun r => extractChunkText r.metadata)
    if chunks.isEmpty then some ""
    else
      match collectAt chunks (rerank query chunks RERANK_LIMIT) with
      | none => none
      | some sel =>
        match joinContext sel with
        | none => none
        | some texts => some (String.intercalate contextSeparator texts)

example :
    get_context (fun _ l => l) (fun _ _ _ => [0])
      [⟨"r1", [1], [("user_id", .str "u2"), ("text", .str "hello")]⟩] "q" "u2"
    = some "hello" := rfl

example :
    get_context (fun _ l => l) (fun _ _ _ => [0])
      [⟨"r1", [1], [("user_id", .str "u1"), ("text", .str "hello")]⟩] "q" "u2"
    = some "" := rfl

/-! ## Generator (`LLMService.generate_answer`, llm.py 30-91) -/

/-- An exception raised by the provider call or while reading the response.
`apiError` carries only the (guarded) `status_code` read — the source never
stringifies an `anthropic.APIError` or reads its message-like attributes, and
accordingly the embedded constructor carries no message at all. -/
inductive LLMFailure where
  | apiError (statusCode : Option Int)
  | keyError (msg : String)
  | attributeError (msg : String)
  | typeError (msg : String)
  | otherError (msg : String)

/-- The prompt assembled around the retrieved context. -/
def promptContent (query context : String) : String :=
  "Here is the retrieved document context:\n<context>\n" ++ context ++
    "\n</context>\n\nUSER QUESTION: " ++ query

def modelNotFoundMsg : String :=
  "SERVICE_ERROR: Model '" ++ LLM_MODEL ++
    "' not found. Please check your model configuration."

def tryAgainMsg : String :=
  "SERVICE_ERROR: Unable to generate a response. Please try again or check the server logs."

/-- Python slicing `s[:n]` (character-level truncation). -/
def pyTake (s : String) (n : Nat) : String := String.mk (s.data.take n)

/-- `f"SERVICE_ERROR: ... Error: ..."` with `str(e)[:100]`. -/
def unexpectedErrMsg (m : String) : String :=
  "SERVICE_ERROR: Unable to generate a response. Error: " ++ pyTake m 100

/-- `LLMService.generate_answer`: the provider oracle is applied to the
assembled prompt; every exception branch returns a safe string (the function
is total — nothing re-raises). -/
def generate_answer (provider : String → Except LLMFailure String)
    (query context : String) : String :=
  match provider (promptContent query context) with
  | .ok answer => answer
  | .error (.apiError statusCode) =>
    if statusCode = some 404 then modelNotFoundMsg else tryAgainMsg
  | .error (.keyError _) => tryAgainMsg
  | .error (.attributeError _) => tryAgainMsg
  | .error (.typeError _) => tryAgainMsg
  | .error (.otherError m) => unexpectedErrMsg m

/-! ## Query endpoint (`query_rag`, chat.py 41-76) -/

structure ChatResponse where
  answer : String
  status : String

def noDocsMsg : String := "I couldn't find any relevant documents to answer your question."

def genericQueryErrMsg : String :=
  "An error occurred while processing your query. Please try again."

def errorLabel : String := "Error processing your query: "

/-- Python `str.strip()` over the character list (whitespace from both ends). -/
def stripChars (l : List Char) : List Char :=
  ((l.dropWhile Char.isWhitespace).reverse.dropWhile Char.isWhitespace).reverse

/-- `raw = str(e)[:200].strip()` — character-level truncation then strip. -/
def rawOf (estr : String) : List Char :=
  stripChars (estr.data.take 200)

/-- The quoted-token test in the error handler:
`(raw.startswith("'") and raw.endswith("'")) or (raw.startswith('"') and raw.endswith('"'))`. -/
def quotedToken (raw : List Char) : Bool :=
  (raw.head? = some '\'' && raw.getLast? = some '\'') ||
    (raw.head? = some '"' && raw.getLast? = some '"')

/-- `query_rag` (chat.py): `ctxOutcome` is the result of the retrieval pipeline
(`.error estr` when it raised an exception whose `str()` is `estr`);
`genAnswer` is the (total, by `generate_answer`) generation step. -/
def query_rag (ctxOutcome : Except String String) (genAnswer : String → String) :
    ChatResponse :=
  match ctxOutcome with
  | .ok context =>
    if context = "" then ⟨noDocsMsg, "success"⟩
    else ⟨genAnswer context, "success"⟩
  | .error estr =>
    let raw := rawOf estr
    if raw.isEmpty then ⟨genericQueryErrMsg, "error"⟩
    else if raw.length < 50 ∧ quotedToken raw then ⟨genericQueryErrMsg, "error"⟩
    else ⟨errorLabel ++ String.mk raw, "error"⟩

/-- The sanitization rule exactly as the claim words it (no stripping step):
kept for comparison with the code's behaviour. -/
def claimSanitize (estr : String) : String :=
  let raw := estr.data.take 200
  if raw.isEmpty then genericQueryErrMsg
  else if raw.length < 50 ∧ quotedToken raw then genericQueryErrMsg
  else errorLabel ++ String.mk raw

/-- The sanitization rule as amended: strip whitespace after truncating. -/
def amendedSanitize (estr : String) : String :=
  let raw := rawOf estr
  if raw.isEmpty ∨ (raw.length < 50 ∧ quotedToken raw) then genericQueryErrMsg
  else errorLabel ++ String.mk raw

/-! ## Ingestion pipeline (`run_ingestion_pipeline`, ingest.py 21-75) -/

inductive IngestResult where
  | ok : IngestResult
  | raised (e : String) : IngestResult

/-- `run_ingestion_pipeline`: `parseOutcome` is the result of
`document_service.process_file` (`.error` when it raised), `upsertErr` tells
whether `vector_service.upsert_chunks` raises on the produced chunks, `fs` is
the set of existing temp-file paths. Returns (result, remaining paths, number
of `os.remove` calls performed). The `finally` block removes `filePath` when
it exists, on every exit path. -/
def run_ingestion_pipeline (parseOutcome : Except String (List Chunk))
    (upsertErr : List Chunk → Option String)
    (fs : List String) (filePath : String) :
    IngestResult × List String × Nat :=
  let body : IngestResult :=
    match parseOutcome with
    | .error e => .raised e
    | .ok chunks =>
      if chunks.isEmpty then .ok
      else
        match upsertErr chunks with
        | some e => .raised e
        | none => .ok
  if fs.contains filePath then (body, fs.erase filePath, 1)
  else (body, fs, 0)

/-! ## Embedding model loading (embeddings.py, vector.py 20-28, search.py 18-25) -/

/-- Process-wide model-loading state: `serviceModelLoads` counts the
`SentenceTransformer(settings.EMBEDDING_MODEL_NAME)` constructions performed by
service constructors; `embeddingsSingleton` is whether `embeddings._model`
has been populated. -/
structure ProcState where
  serviceModelLoads : Nat
  embeddingsSingleton : Bool

def initProcState : ProcState := ⟨0, false⟩

/-- `VectorService.__init__` (vector.py 20-28): constructs its own
`SentenceTransformer` directly. -/
def vectorServiceInit (s : ProcState) : ProcState :=
  { s with serviceModelLoads := s.serviceModelLoads + 1 }

/-- `SearchService.__init__` (search.py 18-25): constructs its own
`SentenceTransformer` directly. -/
def searchServiceInit (s : ProcState) : ProcState :=
  { s with serviceModelLoads := s.serviceModelLoads + 1 }

/-- `get_embedding_model` (embeddings.py 11-22): lazy, memoized. The returned
Bool is whether this call loaded the model. -/
def get_embedding_model (s : ProcState) : ProcState × Bool :=
  if s.embeddingsSingleton then (s, false)
  else ({ s with embeddingsSingleton := true }, true)

/-- Total `SentenceTransformer` loads performed in the process. -/
def totalModelLoads (s : ProcState) : Nat :=
  s.serviceModelLoads + (if s.embeddingsSingleton then 1 else 0)

/-- Importing `app.services.vector` and `app.services.search` (both happen at
application startup, via the API routers) runs
`vector_service = VectorService()` and `search_service = SearchService()`
at module level. -/
def appServicesImport (s : ProcState) : ProcState :=
  searchServiceInit (vectorServiceInit s)

/-! ## Default tenant ids (chat.py 12-16, ingest.py 77-83) -/

/-- `ChatRequest.user_id: str = "default_user"`. -/
def resolveChatUserId (supplied : Option String) : String :=
  supplied.getD "default_user"

/-- `user_id: str = Form("default_user")` on the upload endpoint. -/
def resolveUploadUserId (supplied : Option String) : String :=
  supplied.getD "default_user"

/-! # Theorems -/

/-- Claim C9. The spec says the embedding model is a lazily initialized,
process-wide singleton loaded at most once per process. The code violates
this: `embeddings.get_embedding_model` implements exactly that singleton but
is never called; `VectorService.__init__` and `SearchService.__init__` each
construct their own `SentenceTransformer` eagerly when their modules are
imported at application startup, so two separate model instances are loaded,
and the documented singleton (`embeddings._model`) stays unpopulated. The
singleton itself, had it been used, is memoized (second call performs no
load). -/
theorem c9_two_eager_model_loads :
    totalModelLoads (appServicesImport initProcState) = 2 ∧
    totalModelLoads (appServicesImport initProcState) ≠ 1 ∧
    (appServicesImport initProcState).embeddingsSingleton = false ∧
    (get_embedding_model initProcState).2 = true ∧
    (get_embedding_model (get_embedding_model initProcState).1).2 = false :=
  ⟨rfl, by decide, rfl, rfl, rfl⟩

/-- Claim C10. Both the upload endpoint and the query endpoint substitute the
literal `"default_user"` when `user_id` is omitted, so a document ingested by
one caller that omitted `user_id` is retrievable by a different caller that
also omitted `user_id`: the full pipeline (process_file, then upsert_chunks,
then get_context under the other caller's defaulted tenant id) returns the
first caller's text as context. -/
theorem c10_default_user_shared_partition :
    resolveChatUserId none = "default_user" ∧
    resolveUploadUserId none = "default_user" ∧
    get_context (fun _ l => l) (fun _ _ _ => [0])
      ((upsert_chunks (fun ts => .ok (ts.map (fun _ => [1]))) (fun _ => none)
        (process_file "fb" [("caller one private text", [])]
          [("file_id", PyVal.str "f1"), ("filename", PyVal.str "a.txt"),
           ("user_id", PyVal.str (resolveUploadUserId none)),
           ("extension", PyVal.str ".txt")])).2.1)
      "what documents exist" (resolveChatUserId none)
    = some "caller one private text" :=
  ⟨rfl, rfl, rfl⟩

/-- Claim C3. `LLMService.generate_answer` is total (the embedding returns a
plain `String`: every branch returns, none re-raises), and maps failures as
the claim states: an `APIError` whose guarded `status_code` read gives 404
yields the model-not-found message; an `APIError` with any other status (or an
unreadable one) yields the generic try-again message; `KeyError` /
`AttributeError` / `TypeError` from interpreting the response yield the
generic try-again message; any other exception yields a generic message
carrying at most the first 100 characters of `str(e)`. The `apiError`
constructor carries only the status code — mirroring that the source inspects
only `status_code` and never stringifies the provider error object — so the
output on provider API errors is one of two fixed user-safe strings. -/
theorem c3_generate_answer_mapping
    (provider : String → Except LLMFailure String) (query context : String) :
    (provider (promptContent query context) = .error (.apiError (some 404)) →
      generate_answer provider query context = modelNotFoundMsg) ∧
    (∀ sc, provider (promptContent query context) = .error (.apiError sc) → sc ≠ some 404 →
      generate_answer provider query context = tryAgainMsg) ∧
    (∀ m, provider (promptContent query context) = .error (.keyError m) ∨
          provider (promptContent query context) = .error (.attributeError m) ∨
          provider (promptContent query context) = .error (.typeError m) →
      generate_answer provider query context = tryAgainMsg) ∧
    (∀ m, provider (promptContent query context) = .error (.otherError m) →
      generate_answer provider query context = unexpectedErrMsg m ∧
      (pyTake m 100).length ≤ 100) ∧
    (∀ sc, provider (promptContent query context) = .error (.apiError sc) →
      generate_answer provider query context = modelNotFoundMsg ∨
      generate_answer provider query context = tryAgainMsg) ∧
    (∀ ans, provider (promptContent query context) = .ok ans →
      generate_answer provider query context = ans) := by
  refine ⟨?_, ?_, ?_, ?_, ?_, ?_⟩
  · intro h; simp [generate_answer, h]
  · intro sc h hne; simp [generate_answer, h, hne]
  · rintro m (h | h | h) <;> simp [generate_answer, h]
  · intro m h
    refine ⟨by simp [generate_answer, h], ?_⟩
    simp [pyTake]
  · intro sc h
    by_cases h404 : sc = some 404
    · left; simp [generate_answer, h, h404]
    · right; simp [generate_answer, h, h404]
  · intro ans h; simp [generate_answer, h]

/-- Witness for C3 at a concrete provider that raises a 404 `APIError`. -/
theorem c3_generate_answer_mapping_witness :
    generate_answer (fun _ => .error (.apiError (some 404))) "q" "ctx" = modelNotFoundMsg :=
  (c3_generate_answer_mapping (fun _ => .error (.apiError (some 404))) "q" "ctx").1 rfl

/-- Counterexample to claim C4. The claim's sanitization rule applies the
empty/quoted tests to `str(e)` truncated to 200 characters, but the code
strips whitespace after truncating (`str(e)[:200].strip()`). For an exception
whose `str()` is a single space, the claim's rule prescribes the prefixed
answer while the endpoint returns the generic please-try-again message. -/
theorem c4_counterexample :
    (query_rag (.error " ") (fun _ => "")).answer = genericQueryErrMsg ∧
    claimSanitize " " = errorLabel ++ " " ∧
    genericQueryErrMsg ≠ errorLabel ++ " " :=
  ⟨rfl, rfl, by decide⟩

/-- Claim C4 as amended: `query_rag` never raises (the embedding is a total
function into `ChatResponse`); on any exception propagated from the retrieval
pipeline it returns status `"error"` with the answer given by the sanitization
rule applied to `str(e)[:200]` stripped of surrounding whitespace — the
generic please-try-again message when the stripped truncation is empty or a
short (< 50 chars) quote-wrapped token, otherwise the generic label prefixed
to it; the answer length is bounded; and non-exception outcomes carry status
`"success"`. -/
theorem c4_query_rag_sanitization (estr : String) (genAnswer : String → String) :
    query_rag (.error estr) genAnswer = ⟨amendedSanitize estr, "error"⟩ ∧
    (query_rag (.error estr) genAnswer).answer.length ≤ errorLabel.length + 200 ∧
    (∀ context, (query_rag (.ok context) genAnswer).status = "success") := by
  have hlen : (rawOf estr).length ≤ 200 := by
    have h1 : (stripChars (estr.data.take 200)).length ≤ (estr.data.take 200).length := by
      unfold stripChars
      calc ((((estr.data.take 200).dropWhile Char.isWhitespace).reverse.dropWhile
              Char.isWhitespace).reverse).length
          = (((estr.data.take 200).dropWhile Char.isWhitespace).reverse.dropWhile
              Char.isWhitespace).length := by simp
        _ ≤ ((estr.data.take 200).dropWhile Char.isWhitespace).reverse.length :=
            (List.dropWhile_sublist _).length_le
        _ = ((estr.data.take 200).dropWhile Char.isWhitespace).length := by simp
        _ ≤ (estr.data.take 200).length := (List.dropWhile_sublist _).length_le
    have h2 : (estr.data.take 200).length ≤ 200 := by simp
    exact le_trans (by simpa [rawOf] using h1) h2
  have hmain : query_rag (.error estr) genAnswer = ⟨amendedSanitize estr, "error"⟩ := by
    unfold query_rag amendedSanitize
    by_cases h1 : (rawOf estr).isEmpty
    · simp [h1]
    · by_cases h2 : (rawOf estr).length < 50 ∧ quotedToken (rawOf estr)
      · simp [h1, h2]
      · simp [h1, h2]
  refine ⟨hmain, ?_, ?_⟩
  · rw [hmain]
    show (amendedSanitize estr).length ≤ errorLabel.length + 200
    unfold amendedSanitize
    by_cases h : (rawOf estr).isEmpty ∨ ((rawOf estr).length < 50 ∧ quotedToken (rawOf estr))
    · rw [if_pos h]; decide
    · rw [if_neg h]
      rw [String.length_append]
      have : (String.mk (rawOf estr)).length = (rawOf estr).length := rfl
      omega
  · intro context
    by_cases h : context = "" <;> simp [query_rag, h]

/-- Claim C8. `run_ingestion_pipeline` removes the temp file at `filePath`
exactly once (one `os.remove`, after which the path is gone) on each of the
three exit paths — parse/upsert exception (re-raised to the caller after
cleanup), early return on zero parsed chunks, and successful ingestion —
provided the file exists when the `finally` block runs (it was written by the
upload endpoint; `fs` is the set of temp paths, duplicate-free). -/
theorem c8_cleanup_every_exit_path
    (parseOutcome : Except String (List Chunk)) (upsertErr : List Chunk → Option String)
    (fs : List String) (filePath : String)
    (hmem : filePath ∈ fs) (hnd : fs.Nodup) :
    (run_ingestion_pipeline parseOutcome upsertErr fs filePath).2.2 = 1 ∧
    filePath ∉ (run_ingestion_pipeline parseOutcome upsertErr fs filePath).2.1 ∧
    (∀ e, parseOutcome = .error e →
      (run_ingestion_pipeline parseOutcome upsertErr fs filePath).1 = .raised e) ∧
    (parseOutcome = .ok [] →
      (run_ingestion_pipeline parseOutcome upsertErr fs filePath).1 = .ok) ∧
    (∀ chunks, parseOutcome = .ok chunks → chunks ≠ [] →
      (run_ingestion_pipeline parseOutcome upsertErr fs filePath).1 =
        (match upsertErr chunks with
         | some e => IngestResult.raised e
         | none => IngestResult.ok)) := by
  refine ⟨?_, ?_, ?_, ?_, ?_⟩
  · simp [run_ingestion_pipeline, hmem]
  · simp only [run_ingestion_pipeline]
    rw [if_pos (List.elem_iff.mpr hmem)]
    exact hnd.not_mem_erase
  · intro e he; simp [run_ingestion_pipeline, hmem, he]
  · intro he; simp [run_ingestion_pipeline, hmem, he]
  · intro chunks he hne
    have : chunks.isEmpty = false := by
      cases chunks with
      | nil => exact absurd rfl hne
      | cons a l => rfl
    simp [run_ingestion_pipeline, hmem, he, this]

/-- Witness for C8 at concrete inputs: one existing temp path, a failing
upsert; cleanup runs once and the error is re-raised. -/
theorem c8_cleanup_every_exit_path_witness :
    (run_ingestion_pipeline (.ok [⟨"f#chunk0", "t", [("user_id", PyVal.str "u")]⟩])
      (fun _ => some "boom") ["data/temp/f.pdf"] "data/temp/f.pdf").2.2 = 1 ∧
    "data/temp/f.pdf" ∉ (run_ingestion_pipeline
      (.ok [⟨"f#chunk0", "t", [("user_id", PyVal.str "u")]⟩])
      (fun _ => some "boom") ["data/temp/f.pdf"] "data/temp/f.pdf").2.1 ∧
    (run_ingestion_pipeline (.ok [⟨"f#chunk0", "t", [("user_id", PyVal.str "u")]⟩])
      (fun _ => some "boom") ["data/temp/f.pdf"] "data/temp/f.pdf").1
      = .raised "boom" := by
  have h := c8_cleanup_every_exit_path
    (.ok [⟨"f#chunk0", "t", [("user_id", PyVal.str "u")]⟩])
    (fun _ => some "boom") ["data/temp/f.pdf"] "data/temp/f.pdf"
    (by simp) (by simp)
  exact ⟨h.1, h.2.1, h.2.2.2.2 _ rfl (by simp)⟩

/-! ### Helper lemmas for the search pipeline -/

lemma mem_of_collectAt {chunks : List PyVal} :
    ∀ {idxs : List Nat} {sel : List PyVal}, collectAt chunks idxs = some sel →
      ∀ v ∈ sel, v ∈ chunks := by
  intro idxs
  induction idxs with
  | nil => intro sel h v hv; simp [collectAt] at h; subst h; cases hv
  | cons i is ih =>
    intro sel h v hv
    simp only [collectAt] at h
    cases hg : chunks.get? i with
    | none => rw [hg] at h; cases h
    | some w =>
      rw [hg] at h
      cases hc : collectAt chunks is with
      | none => rw [hc] at h; cases h
      | some vs =>
        rw [hc] at h
        cases h
        rcases List.mem_cons.mp hv with hv | hv
        · subst hv; exact List.get?_mem hg
        · exact ih hc v hv

lemma mem_of_joinContext :
    ∀ {sel : List PyVal} {texts : List String}, joinContext sel = some texts →
      ∀ t ∈ texts, PyVal.str t ∈ sel := by
  intro sel
  induction sel with
  | nil => intro texts h t ht; simp [joinContext] at h; subst h; cases ht
  | cons v vs ih =>
    intro texts h t ht
    cases v with
    | str s =>
      simp only [joinContext] at h
      cases hr : joinContext vs with
      | none => rw [hr] at h; cases h
      | some ss =>
        rw [hr] at h
        cases h
        rcases List.mem_cons.mp ht with ht | ht
        · subst ht; exact List.mem_cons_self _ _
        · exact List.mem_cons_of_mem _ (ih hr t ht)
    | pynone => cases h
    | int n => cases h
    | float q => cases h
    | bool b => cases h
    | list es => cases h
    | dict kvs => cases h
    | other a b => cases h

/-- Claim C1. Tenant isolation of `SearchService.get_context`.
The Pinecone ranking is an arbitrary oracle `rank` that can only reorder or
drop the (already tenant-filtered) records it is given (`hrank`); the Cohere
reranker is an arbitrary index oracle. First conjunct: whenever
`get_context` returns a context string for tenant `userId`, that string is
the separator-join of chunk texts each of which is the stored `text` of a
record in the store whose metadata `user_id` equals `userId` — context is
assembled only from the caller's tenant's records. Second conjunct (two-run
noninterference): two stores that agree on their `userId`-records produce
identical results, for every query — records of any other tenant (including a
tenant holding a distinguishing token) cannot influence the context. -/
theorem c1_tenant_isolation
    (rank : String → List PRecord → List PRecord)
    (rerank : String → List PyVal → Nat → List Nat)
    (store : List PRecord) (query userId : String)
    (hrank : ∀ q l r, r ∈ rank q l → r ∈ l) :
    (∀ ctx, get_context rank rerank store query userId = some ctx →
      ∃ texts : List String, ctx = String.intercalate contextSeparator texts ∧
        ∀ t ∈ texts, ∃ rec ∈ store,
          matchesUser rec.metadata userId = true ∧
          List.lookup "text" rec.metadata = some (PyVal.str t)) ∧
    (∀ store₂,
      store.filter (fun r => matchesUser r.metadata userId) =
        store₂.filter (fun r => matchesUser r.metadata userId) →
      get_context rank rerank store query userId =
        get_context rank rerank store₂ query userId) := by
  constructor
  · intro ctx h
    unfold get_context at h
    set ms := (rank query (store.filter (fun r => matchesUser r.metadata userId))).take
      RETRIEVAL_LIMIT with hms
    by_cases hempty : ms.isEmpty
    · rw [if_pos hempty] at h
      refine ⟨[], ?_, ?_⟩
      · cases h; rfl
      · intro t ht; cases ht
    · rw [if_neg hempty] at h
      set chunks := ms.filterMap (fun r => extractChunkText r.metadata) with hchunks
      by_cases hcempty : chunks.isEmpty
      · rw [if_pos hcempty] at h
        refine ⟨[], ?_, ?_⟩
        · cases h; rfl
        · intro t ht; cases ht
      · rw [if_neg hcempty] at h
        cases hcol : collectAt chunks (rerank query chunks RERANK_LIMIT) with
        | none => rw [hcol] at h; cases h
        | some sel =>
          rw [hcol] at h
          change (match joinContext sel with
                  | none => none
                  | some texts => some (String.intercalate contextSeparator texts))
              = some ctx at h
          cases hjoin : joinContext sel with
          | none => rw [hjoin] at h; cases h
          | some texts =>
            rw [hjoin] at h
            cases h
            refine ⟨texts, rfl, ?_⟩
            intro t ht
            have hsel : PyVal.str t ∈ sel := mem_of_joinContext hjoin t ht
            have hchk : PyVal.str t ∈ chunks := mem_of_collectAt hcol _ hsel
            rw [hchunks] at hchk
            rcases List.mem_filterMap.mp hchk with ⟨rec, hrecms, hext⟩
            have hrecfil : rec ∈ store.filter (fun r => matchesUser r.metadata userId) :=
              hrank _ _ _ (List.take_subset _ _ hrecms)
            rcases List.mem_filter.mp hrecfil with ⟨hrecstore, hmatch⟩
            refine ⟨rec, hrecstore, hmatch, ?_⟩
            unfold extractChunkText at hext
            cases hl : List.lookup "text" rec.metadata with
            | none => rw [hl] at hext; cases hext
            | some v =>
              rw [hl] at hext
              change (if v.truthy = true then some v else none)
                  = some (PyVal.str t) at hext
              by_cases htr : v.truthy
              · rw [if_pos htr] at hext
                exact hext
              · rw [if_neg htr] at hext; cases hext
  · intro store₂ heq
    unfold get_context
    rw [heq]

/-- Witness for C1 at a concrete store, identity ranking and a head-picking
reranker: the returned context "hello" is assembled from the tenant's record. -/
theorem c1_tenant_isolation_witness :
    ∃ texts : List String, "hello" = String.intercalate contextSeparator texts ∧
      ∀ t ∈ texts,
        ∃ rec ∈ ([⟨"r1", [1], [("user_id", PyVal.str "u2"), ("text", PyVal.str "hello")]⟩] :
            List PRecord),
          matchesUser rec.metadata "u2" = true ∧
          List.lookup "text" rec.metadata = some (PyVal.str t) :=
  (c1_tenant_isolation (fun _ l => l) (fun _ _ _ => [0])
    [⟨"r1", [1], [("user_id", PyVal.str "u2"), ("text", PyVal.str "hello")]⟩] "q" "u2"
    (fun _ _ _ h => h)).1 "hello" rfl

/-! ### Helper lemmas for the batch upsert loop -/

lemma upsertBatch_cases (F : List String → Except String (List (List Int)))
    (U : List PRecord → Option String) (b : List Chunk) :
    (∃ e, upsertBatch F U b = ([.embedCall (b.map (·.text))], [], some e)) ∨
    (∃ recs e, upsertBatch F U b
      = ([.embedCall (b.map (·.text)), .upsertCall recs], [], some e)) ∨
    (∃ recs, upsertBatch F U b
      = ([.embedCall (b.map (·.text)), .upsertCall recs], recs, none)) := by
  rcases hF : F (b.map (·.text)) with e | embs
  · exact Or.inl ⟨e, by simp only [upsertBatch, hF]⟩
  · rcases hB : buildRecords b embs with _ | recs
    · exact Or.inl ⟨"TypeError: Object is not JSON serializable",
        by simp only [upsertBatch, hF, hB]⟩
    · rcases hU : U recs with _ | e
      · exact Or.inr (Or.inr ⟨recs, by simp only [upsertBatch, hF, hB, hU]⟩)
      · exact Or.inr (Or.inl ⟨recs, e, by simp only [upsertBatch, hF, hB, hU]⟩)

lemma upsertBatch_fail_recs (F : List String → Except String (List (List Int)))
    (U : List PRecord → Option String) (b : List Chunk) (e : String)
    (h : (upsertBatch F U b).2.2 = some e) : (upsertBatch F U b).2.1 = [] := by
  rcases upsertBatch_cases F U b with ⟨e', hh⟩ | ⟨recs, e', hh⟩ | ⟨recs, hh⟩
  · rw [hh]
  · rw [hh]
  · rw [hh] at h; cases h

lemma upsertBatch_success_shape (F : List String → Except String (List (List Int)))
    (U : List PRecord → Option String) (b : List Chunk)
    (h : (upsertBatch F U b).2.2 = none) :
    (upsertBatch F U b).1 =
      [VEvent.embedCall (b.map (·.text)), VEvent.upsertCall ((upsertBatch F U b).2.1)] := by
  rcases upsertBatch_cases F U b with ⟨e, hh⟩ | ⟨recs, e, hh⟩ | ⟨recs, hh⟩
  · rw [hh] at h; cases h
  · rw [hh] at h; cases h
  · rw [hh]

lemma upsertLoop_cons_fail (F : List String → Except String (List (List Int)))
    (U : List PRecord → Option String) (b : List Chunk) (rest : List (List Chunk))
    (e : String) (h : (upsertBatch F U b).2.2 = some e) :
    upsertLoop F U (b :: rest) = ((upsertBatch F U b).1, (upsertBatch F U b).2.1, some e) := by
  simp only [upsertLoop]
  rcases hb : upsertBatch F U b with ⟨evs, recs, err⟩
  rw [hb] at h
  simp only at h
  subst h
  rfl

lemma upsertLoop_cons_succ (F : List String → Except String (List (List Int)))
    (U : List PRecord → Option String) (b : List Chunk) (rest : List (List Chunk))
    (h : (upsertBatch F U b).2.2 = none) :
    upsertLoop F U (b :: rest) =
      ((upsertBatch F U b).1 ++ (upsertLoop F U rest).1,
       (upsertBatch F U b).2.1 ++ (upsertLoop F U rest).2.1,
       (upsertLoop F U rest).2.2) := by
  simp only [upsertLoop]
  rcases hb : upsertBatch F U b with ⟨evs, recs, err⟩
  rw [hb] at h
  simp only at h
  subst h
  rfl

lemma upsertBatch_no_delete (F : List String → Except String (List (List Int)))
    (U : List PRecord → Option String) (b : List Chunk) :
    ∀ ev ∈ (upsertBatch F U b).1, ev.isDelete = false := by
  rcases upsertBatch_cases F U b with ⟨e, hh⟩ | ⟨recs, e, hh⟩ | ⟨recs, hh⟩ <;>
    rw [hh] <;> intro ev hev <;> simp at hev
  · subst hev; rfl
  · rcases hev with hev | hev <;> subst hev <;> rfl
  · rcases hev with hev | hev <;> subst hev <;> rfl

lemma upsertLoop_no_delete (F : List String → Except String (List (List Int)))
    (U : List PRecord → Option String) :
    ∀ bs, ∀ ev ∈ (upsertLoop F U bs).1, ev.isDelete = false := by
  intro bs
  induction bs with
  | nil => intro ev hev; cases hev
  | cons b rest ih =>
    intro ev hev
    by_cases hb : (upsertBatch F U b).2.2 = none
    · rw [upsertLoop_cons_succ F U b rest hb] at hev
      rcases List.mem_append.mp hev with h | h
      · exact upsertBatch_no_delete F U b ev h
      · exact ih ev h
    · obtain ⟨e, he⟩ := Option.ne_none_iff_exists'.mp hb
      rw [upsertLoop_cons_fail F U b rest e he] at hev
      exact upsertBatch_no_delete F U b ev hev

lemma upsertLoop_first_fail (F : List String → Except String (List (List Int)))
    (U : List PRecord → Option String) :
    ∀ (k : Nat) (bs : List (List Chunk)) (bk : List Chunk) (e : String),
      bs[k]? = some bk →
      (∀ b ∈ bs.take k, (upsertBatch F U b).2.2 = none) →
      (upsertBatch F U bk).2.2 = some e →
      upsertLoop F U bs =
        (((bs.take k).map (fun b => (upsertBatch F U b).1)).flatten
           ++ (upsertBatch F U bk).1,
         ((bs.take k).map (fun b => (upsertBatch F U b).2.1)).flatten,
         some e) := by
  intro k
  induction k with
  | zero =>
    intro bs bk e hget hpre hfail
    cases bs with
    | nil => cases hget
    | cons b rest =>
      have hbk : b = bk := by simpa using hget
      subst hbk
      rw [upsertLoop_cons_fail F U b rest e hfail]
      rw [upsertBatch_fail_recs F U b e hfail]
      simp
  | succ k ih =>
    intro bs bk e hget hpre hfail
    cases bs with
    | nil => cases hget
    | cons b rest =>
      have hb : (upsertBatch F U b).2.2 = none :=
        hpre b (by simp [List.take_succ_cons])
      rw [upsertLoop_cons_succ F U b rest hb]
      rw [ih rest bk e (by simpa using hget)
        (fun b' hb' => hpre b' (by simp [List.take_succ_cons, hb']))
        hfail]
      simp [List.take_succ_cons]

lemma upsertLoop_all_success (F : List String → Except String (List (List Int)))
    (U : List PRecord → Option String) :
    ∀ bs, (∀ b ∈ bs, (upsertBatch F U b).2.2 = none) →
      upsertLoop F U bs =
        ((bs.map (fun b => (upsertBatch F U b).1)).flatten,
         (bs.map (fun b => (upsertBatch F U b).2.1)).flatten,
         none) := by
  intro bs
  induction bs with
  | nil => intro _; rfl
  | cons b rest ih =>
    intro h
    rw [upsertLoop_cons_succ F U b rest (h b (List.mem_cons_self _ _))]
    rw [ih (fun b' hb' => h b' (List.mem_cons_of_mem _ hb'))]
    simp

/-! ### Helper lemmas for the batch partition -/

lemma pybatches_length (chunks : List Chunk) :
    (pybatches chunks).length = (chunks.length + 99) / 100 := by
  simp [pybatches, batchSize]

lemma flatten_take_blocks (l : List Chunk) :
    ∀ n : Nat, ((List.range n).map (fun j => (l.drop (100 * j)).take 100)).flatten
      = l.take (100 * n) := by
  intro n
  induction n with
  | zero => simp
  | succ n ih =>
    rw [List.range_succ, List.map_append, List.flatten_append]
    simp only [List.map_cons, List.map_nil, List.flatten_cons, List.flatten_nil,
      List.append_nil]
    rw [ih, show 100 * (n + 1) = 100 * n + 100 by omega, List.take_add]

lemma pybatches_flatten (chunks : List Chunk) : (pybatches chunks).flatten = chunks := by
  have h : pybatches chunks =
      (List.range ((chunks.length + 99) / 100)).map
        (fun j => (chunks.drop (100 * j)).take 100) := by
    simp [pybatches, batchSize]
  rw [h, flatten_take_blocks]
  apply List.take_of_length_le
  have hmd := Nat.mod_add_div (chunks.length + 99) 100
  have hlt : (chunks.length + 99) % 100 < 100 := Nat.mod_lt _ (by norm_num)
  omega

lemma mem_pybatches_bounds (chunks : List Chunk) :
    ∀ b ∈ pybatches chunks, b.length ≤ 100 ∧ b ≠ [] := by
  intro b hb
  have hb' : ∃ j, j < (chunks.length + 99) / 100 ∧
      (chunks.drop (100 * j)).take 100 = b := by
    simpa [pybatches, batchSize] using hb
  obtain ⟨j, hj, hbe⟩ := hb'
  subst hbe
  constructor
  · rw [List.length_take]
    omega
  · have h100j : 100 * j < chunks.length := by omega
    intro hnil
    have : ((chunks.drop (100 * j)).take 100).length = 0 := by rw [hnil]; rfl
    rw [List.length_take, List.length_drop] at this
    omega

lemma mem_pybatches_subset (chunks : List Chunk) :
    ∀ b ∈ pybatches chunks, ∀ c ∈ b, c ∈ chunks := by
  intro b hb c hc
  have hb' : ∃ j, j < (chunks.length + 99) / 100 ∧
      (chunks.drop (100 * j)).take 100 = b := by
    simpa [pybatches, batchSize] using hb
  obtain ⟨j, _, hbe⟩ := hb'
  subst hbe
  exact List.drop_subset _ _ (List.take_subset _ _ hc)

lemma upsert_chunks_ne_nil (F : List String → Except String (List (List Int)))
    (U : List PRecord → Option String) (chunks : List Chunk) (hne : chunks ≠ []) :
    upsert_chunks F U chunks = upsertLoop F U (pybatches chunks) := by
  have h : chunks.isEmpty = false := by simpa [List.isEmpty_iff] using hne
  simp [upsert_chunks, h]

/-- Claim C5. If batch `k` is the first batch on which embedding, record
construction, or the upsert call fails, `upsert_chunks` re-raises exactly that
error; the calls issued are exactly those of batches `0..k-1` followed by the
failing batch's own calls (so no embedding or upsert call is issued for any
batch after `k`, and no delete call is ever issued — there is no compensating
rollback); and the records committed to the index are exactly those of
batches `0..k-1`, which remain committed. -/
theorem c5_abort_on_batch_failure
    (F : List String → Except String (List (List Int)))
    (U : List PRecord → Option String)
    (chunks : List Chunk) (k : Nat) (bk : List Chunk) (e : String)
    (hget : (pybatches chunks)[k]? = some bk)
    (hpre : ∀ b ∈ (pybatches chunks).take k, (upsertBatch F U b).2.2 = none)
    (hfail : (upsertBatch F U bk).2.2 = some e) :
    upsert_chunks F U chunks =
      ((((pybatches chunks).take k).map (fun b => (upsertBatch F U b).1)).flatten
         ++ (upsertBatch F U bk).1,
       (((pybatches chunks).take k).map (fun b => (upsertBatch F U b).2.1)).flatten,
       some e) ∧
    (∀ ev ∈ (upsert_chunks F U chunks).1, ev.isDelete = false) := by
  have hne : chunks ≠ [] := by
    intro hnil
    subst hnil
    cases hget
  have hmain := upsertLoop_first_fail F U k (pybatches chunks) bk e hget hpre hfail
  rw [upsert_chunks_ne_nil F U chunks hne]
  exact ⟨hmain, upsertLoop_no_delete F U (pybatches chunks)⟩

/-- Witness for C5: a single-chunk list whose only batch fails at the
embedding call; nothing is committed and the error is re-raised. -/
theorem c5_abort_on_batch_failure_witness :
    upsert_chunks (fun _ => .error "embed down") (fun _ => none)
      [⟨"f#chunk0", "alpha", [("user_id", PyVal.str "u")]⟩] =
      ([VEvent.embedCall ["alpha"]], [], some "embed down") ∧
    (∀ ev ∈ (upsert_chunks (fun _ => .error "embed down") (fun _ => none)
      [⟨"f#chunk0", "alpha", [("user_id", PyVal.str "u")]⟩]).1, ev.isDelete = false) :=
  c5_abort_on_batch_failure (fun _ => .error "embed down") (fun _ => none)
    [⟨"f#chunk0", "alpha", [("user_id", PyVal.str "u")]⟩] 0
    [⟨"f#chunk0", "alpha", [("user_id", PyVal.str "u")]⟩] "embed down"
    rfl (by simp) rfl

/-- Claim C7. For a non-empty chunk list of length `N` on which every batch
succeeds, `upsert_chunks` partitions the input in order into `ceil(N/100)`
contiguous batches, each non-empty and of at most 100 chunks, whose
concatenation is the input; the issued calls are exactly, per batch and in
order, one embedding call on exactly that batch's texts followed by one upsert
call; so the numbers of embedding calls and of upsert calls both equal
`ceil(N/100)`. -/
theorem c7_batching_discipline
    (F : List String → Except String (List (List Int)))
    (U : List PRecord → Option String)
    (chunks : List Chunk) (hne : chunks ≠ [])
    (hsucc : ∀ b ∈ pybatches chunks, (upsertBatch F U b).2.2 = none) :
    (pybatches chunks).length = (chunks.length + 99) / 100 ∧
    (∀ b ∈ pybatches chunks, b.length ≤ 100 ∧ b ≠ []) ∧
    (pybatches chunks).flatten = chunks ∧
    upsert_chunks F U chunks =
      (((pybatches chunks).map (fun b => (upsertBatch F U b).1)).flatten,
       ((pybatches chunks).map (fun b => (upsertBatch F U b).2.1)).flatten,
       none) ∧
    (∀ b ∈ pybatches chunks,
      (upsertBatch F U b).1 =
        [VEvent.embedCall (b.map (·.text)),
         VEvent.upsertCall ((upsertBatch F U b).2.1)]) ∧
    ((upsert_chunks F U chunks).1.filter VEvent.isEmbed).length
      = (chunks.length + 99) / 100 ∧
    ((upsert_chunks F U chunks).1.filter VEvent.isUpsert).length
      = (chunks.length + 99) / 100 := by
  have hloop := upsertLoop_all_success F U (pybatches chunks) hsucc
  have hchunks : upsert_chunks F U chunks = upsertLoop F U (pybatches chunks) :=
    upsert_chunks_ne_nil F U chunks hne
  have hcount : ∀ bs : List (List Chunk),
      (∀ b ∈ bs, (upsertBatch F U b).2.2 = none) →
      ((upsertLoop F U bs).1.filter VEvent.isEmbed).length = bs.length ∧
      ((upsertLoop F U bs).1.filter VEvent.isUpsert).length = bs.length := by
    intro bs
    induction bs with
    | nil => intro _; exact ⟨rfl, rfl⟩
    | cons b rest ih =>
      intro h
      have hb := h b (List.mem_cons_self _ _)
      have hrest := ih (fun b' hb' => h b' (List.mem_cons_of_mem _ hb'))
      rw [upsertLoop_cons_succ F U b rest hb]
      rw [upsertBatch_success_shape F U b hb]
      constructor
      · simp only [List.filter_append, List.length_append, hrest.1]
        simp [VEvent.isEmbed, VEvent.isUpsert]
        omega
      · simp only [List.filter_append, List.length_append, hrest.2]
        simp [VEvent.isEmbed, VEvent.isUpsert]
        omega
  refine ⟨pybatches_length chunks, mem_pybatches_bounds chunks,
    pybatches_flatten chunks, ?_, ?_, ?_, ?_⟩
  · rw [hchunks, hloop]
  · intro b hb
    exact upsertBatch_success_shape F U b (hsucc b hb)
  · rw [hchunks, (hcount (pybatches chunks) hsucc).1, pybatches_length]
  · rw [hchunks, (hcount (pybatches chunks) hsucc).2, pybatches_length]

/-- Witness for C7: two chunks form one batch; one embed call on both texts
and one upsert call are issued. -/
theorem c7_batching_discipline_witness :
    (pybatches [⟨"f#chunk0", "alpha", [("user_id", PyVal.str "u")]⟩,
                ⟨"f#chunk1", "beta", [("user_id", PyVal.str "u")]⟩]).length
      = (([⟨"f#chunk0", "alpha", [("user_id", PyVal.str "u")]⟩,
           ⟨"f#chunk1", "beta", [("user_id", PyVal.str "u")]⟩] : List Chunk).length + 99) / 100 ∧
    ((upsert_chunks (fun ts => .ok (ts.map (fun _ => [1]))) (fun _ => none)
      [⟨"f#chunk0", "alpha", [("user_id", PyVal.str "u")]⟩,
       ⟨"f#chunk1", "beta", [("user_id", PyVal.str "u")]⟩]).1.filter VEvent.isEmbed).length
      = 1 := by
  have h := c7_batching_discipline (fun ts => .ok (ts.map (fun _ => [1]))) (fun _ => none)
    [⟨"f#chunk0", "alpha", [("user_id", PyVal.str "u")]⟩,
     ⟨"f#chunk1", "beta", [("user_id", PyVal.str "u")]⟩]
    (List.cons_ne_nil _ _) (by decide)
  exact ⟨h.1, h.2.2.2.2.2.1⟩

/-! ### Helper lemmas for metadata lookup through the pipeline -/

lemma lookup_append_some {l₁ l₂ : List (String × PyVal)} {k : String} {v : PyVal}
    (h : List.lookup k l₁ = some v) : List.lookup k (l₁ ++ l₂) = some v := by
  induction l₁ with
  | nil => cases h
  | cons p rest ih =>
    rcases p with ⟨k₁, v₁⟩
    by_cases hk : k = k₁
    · subst hk
      simpa [List.lookup] using h
    · have hbeq : (k == k₁) = false := beq_eq_false_iff_ne.mpr hk
      simp only [List.cons_append, List.lookup, hbeq] at h ⊢
      exact ih h

lemma lookup_dedupKeysAux (l : List (String × PyVal)) :
    ∀ (seen : List String) (k : String),
      List.lookup k (dedupKeysAux seen l) =
        if seen.contains k then none else List.lookup k l := by
  induction l with
  | nil =>
    intro seen k
    cases h : seen.contains k <;> simp [dedupKeysAux, h]
  | cons p rest ih =>
    intro seen k
    rcases p with ⟨k₁, v₁⟩
    simp only [dedupKeysAux]
    cases hk₁ : seen.contains k₁ with
    | true =>
      rw [if_pos rfl, ih seen k]
      cases hsk : seen.contains k with
      | true => rw [if_pos rfl, if_pos rfl]
      | false =>
        rw [if_neg Bool.false_ne_true, if_neg Bool.false_ne_true]
        have hne : (k == k₁) = false := by
          apply beq_eq_false_iff_ne.mpr
          intro hkk
          rw [hkk, hk₁] at hsk
          cases hsk
        rw [List.lookup_cons, hne]
    | false =>
      rw [if_neg Bool.false_ne_true]
      by_cases hkk : k = k₁
      · subst hkk
        rw [hk₁, if_neg Bool.false_ne_true]
        rw [List.lookup_cons, List.lookup_cons, beq_self_eq_true k]
      · have hne : (k == k₁) = false := beq_eq_false_iff_ne.mpr hkk
        rw [List.lookup_cons, hne]
        show List.lookup k (dedupKeysAux (k₁ :: seen) rest) =
          if seen.contains k then none else List.lookup k ((k₁, v₁) :: rest)
        rw [ih (k₁ :: seen) k]
        have hcons : ((k₁ :: seen).contains k) = seen.contains k := by
          rw [List.contains_cons]
          have h2 : (k == k₁) = false := beq_eq_false_iff_ne.mpr hkk
          rw [h2, Bool.false_or]
        rw [hcons, List.lookup_cons, hne]

lemma lookup_dedupKeys (l : List (String × PyVal)) (k : String) :
    List.lookup k (dedupKeys l) = List.lookup k l := by
  rw [dedupKeys, lookup_dedupKeysAux]
  rfl

lemma sanitize_lookup_str :
    ∀ (m out : List (String × PyVal)) (k : String) (s : String),
      sanitize_metadata m = some out → List.lookup k m = some (.str s) →
      excludeFields.contains k = false → List.lookup k out = some (.str s) := by
  intro m
  induction m with
  | nil => intro out k s _ hl; cases hl
  | cons p rest ih =>
    intro out k s hs hl hexcl
    rcases p with ⟨k₁, v₁⟩
    by_cases hk : k = k₁
    · subst hk
      have hv : v₁ = .str s := by simpa [List.lookup] using hl
      subst hv
      have hfield : sanitizeField k (.str s) = some (some (.str s)) := by
        unfold sanitizeField
        rw [if_neg (by rw [hexcl]; exact Bool.false_ne_true)]
      simp only [sanitize_metadata, hfield] at hs
      cases hrest : sanitize_metadata rest with
      | none => rw [hrest] at hs; cases hs
      | some out' =>
        rw [hrest] at hs
        cases hs
        simp [List.lookup]
    · have hbeq : (k == k₁) = false := beq_eq_false_iff_ne.mpr hk
      rw [List.lookup, hbeq] at hl
      simp only [sanitize_metadata] at hs
      cases hf : sanitizeField k₁ v₁ with
      | none => rw [hf] at hs; cases hs
      | some w =>
        rw [hf] at hs
        cases w with
        | none => exact ih out k s hs hl hexcl
        | some w' =>
          cases hrest : sanitize_metadata rest with
          | none => rw [hrest] at hs; cases hs
          | some out' =>
            rw [hrest] at hs
            cases hs
            rw [List.lookup, hbeq]
            exact ih out' k s hrest hl hexcl

lemma mem_buildRecords :
    ∀ (cs : List Chunk) (es : List (List Int)) (rs : List PRecord) (r : PRecord),
      buildRecords cs es = some rs → r ∈ rs →
      ∃ c ∈ cs, sanitize_metadata c.metadata = some r.metadata := by
  intro cs
  induction cs with
  | nil =>
    intro es rs r h hr
    cases es <;> (simp only [buildRecords] at h; cases h; cases hr)
  | cons c rest ih =>
    intro es rs r h hr
    cases es with
    | nil => simp only [buildRecords] at h; cases h; cases hr
    | cons e es' =>
      simp only [buildRecords] at h
      cases hsm : sanitize_metadata c.metadata with
      | none => rw [hsm] at h; cases h
      | some sm =>
        rw [hsm] at h
        cases hrec : buildRecords rest es' with
        | none => rw [hrec] at h; cases h
        | some rs' =>
          rw [hrec] at h
          cases h
          rcases List.mem_cons.mp hr with hr | hr
          · subst hr
            exact ⟨c, List.mem_cons_self _ _, hsm⟩
          · obtain ⟨c', hc', hc'eq⟩ := ih es' rs' r hrec hr
            exact ⟨c', List.mem_cons_of_mem _ hc', hc'eq⟩

lemma mem_upsertBatch_recs (F : List String → Except String (List (List Int)))
    (U : List PRecord → Option String) (b : List Chunk) (r : PRecord)
    (h : r ∈ (upsertBatch F U b).2.1) :
    ∃ c ∈ b, sanitize_metadata c.metadata = some r.metadata := by
  rcases hF : F (b.map (·.text)) with e | embs
  · simp only [upsertBatch, hF] at h; cases h
  · rcases hB : buildRecords b embs with _ | recs
    · simp only [upsertBatch, hF, hB] at h; cases h
    · rcases hU : U recs with _ | e
      · simp only [upsertBatch, hF, hB, hU] at h
        exact mem_buildRecords b embs recs r hB h
      · simp only [upsertBatch, hF, hB, hU] at h; cases h

lemma mem_upsertLoop_recs (F : List String → Except String (List (List Int)))
    (U : List PRecord → Option String) :
    ∀ (bs : List (List Chunk)) (r : PRecord), r ∈ (upsertLoop F U bs).2.1 →
      ∃ b ∈ bs, r ∈ (upsertBatch F U b).2.1 := by
  intro bs
  induction bs with
  | nil => intro r hr; cases hr
  | cons b rest ih =>
    intro r hr
    by_cases hb : (upsertBatch F U b).2.2 = none
    · rw [upsertLoop_cons_succ F U b rest hb] at hr
      rcases List.mem_append.mp hr with h | h
      · exact ⟨b, List.mem_cons_self _ _, h⟩
      · obtain ⟨b', hb', hrb'⟩ := ih r h
        exact ⟨b', List.mem_cons_of_mem _ hb', hrb'⟩
    · obtain ⟨e, he⟩ := Option.ne_none_iff_exists'.mp hb
      rw [upsertLoop_cons_fail F U b rest e he] at hr
      exact ⟨b, List.mem_cons_self _ _, hr⟩

lemma process_file_lookup (fb : String)
    (elems : List (String × List (String × PyVal)))
    (meta : List (String × PyVal)) (c : Chunk) (hc : c ∈ process_file fb elems meta)
    (k : String) (hk : k ≠ "text") (v : PyVal)
    (hv : List.lookup k meta = some v) :
    List.lookup k c.metadata = some v := by
  simp only [process_file, List.mem_map] at hc
  obtain ⟨p, _, hpc⟩ := hc
  subst hpc
  simp only
  rw [lookup_dedupKeys]
  have hbeq : (k == "text") = false := beq_eq_false_iff_ne.mpr hk
  rw [List.cons_append, List.lookup, hbeq]
  exact lookup_append_some hv

/-- Counterexample to claim C2. The upload endpoint's `user_id` form field
defaults to `"default_user"` only when omitted; a caller may explicitly
supply the empty string, which no layer rejects. Running the ingestion path
with `user_id=""` persists a record whose sanitized metadata carries
`user_id = ""`, so a record IS persisted without a non-empty `user_id`. -/
theorem c2_counterexample :
    ((upsert_chunks (fun ts => .ok (ts.map (fun _ => [1]))) (fun _ => none)
      (process_file "fb" [("hello", [])]
        [("file_id", PyVal.str "f1"), ("filename", PyVal.str "a.txt"),
         ("user_id", PyVal.str ""), ("extension", PyVal.str ".txt")])).2.1).map
      (fun r => List.lookup "user_id" r.metadata) = [some (PyVal.str "")] := rfl

/-- Claim C2 as amended: every record the ingestion path
(`process_file` then `upsert_chunks`) commits to the vector store carries a
`user_id` equal to the tenant identifier string supplied in the ingestion
metadata; it is non-empty whenever the supplied identifier is non-empty (the
code does not reject an explicitly empty supplied identifier). -/
theorem c2_user_id_stamped_on_every_record
    (F : List String → Except String (List (List Int)))
    (U : List PRecord → Option String)
    (fb : String) (elems : List (String × List (String × PyVal)))
    (meta : List (String × PyVal)) (u : String)
    (hu : List.lookup "user_id" meta = some (PyVal.str u)) :
    (∀ r ∈ (upsert_chunks F U (process_file fb elems meta)).2.1,
      List.lookup "user_id" r.metadata = some (PyVal.str u)) ∧
    (u ≠ "" → ∀ r ∈ (upsert_chunks F U (process_file fb elems meta)).2.1,
      ∃ s, List.lookup "user_id" r.metadata = some (PyVal.str s) ∧ s ≠ "") := by
  have hmain : ∀ r ∈ (upsert_chunks F U (process_file fb elems meta)).2.1,
      List.lookup "user_id" r.metadata = some (PyVal.str u) := by
    intro r hr
    by_cases hne : process_file fb elems meta = []
    · rw [hne] at hr
      cases hr
    · rw [upsert_chunks_ne_nil F U _ hne] at hr
      obtain ⟨b, hb, hrb⟩ := mem_upsertLoop_recs F U _ r hr
      obtain ⟨c, hc, hcs⟩ := mem_upsertBatch_recs F U b r hrb
      have hcc : c ∈ process_file fb elems meta :=
        mem_pybatches_subset _ b hb c hc
      have hlc : List.lookup "user_id" c.metadata = some (PyVal.str u) :=
        process_file_lookup fb elems meta c hcc "user_id" (by decide) _ hu
      exact sanitize_lookup_str c.metadata r.metadata "user_id" u hcs hlc rfl
  exact ⟨hmain, fun hune r hr => ⟨u, hmain r hr, hune⟩⟩

/-- Witness for C2 (amended) at a concrete non-empty tenant id: the single
record the concrete ingestion run persists carries `user_id = "alice"`. -/
theorem c2_user_id_stamped_on_every_record_witness :
    List.lookup "user_id"
      (({ id := "f1#chunk0", values := [1],
          metadata := [("text", PyVal.str "hello"), ("file_id", PyVal.str "f1"),
            ("filename", PyVal.str "a.txt"), ("user_id", PyVal.str "alice"),
            ("extension", PyVal.str ".txt")] } : PRecord)).metadata
      = some (PyVal.str "alice") :=
  (c2_user_id_stamped_on_every_record (fun ts => .ok (ts.map (fun _ => [1])))
    (fun _ => none) "fb" [("hello", [])]
    [("file_id", PyVal.str "f1"), ("filename", PyVal.str "a.txt"),
     ("user_id", PyVal.str "alice"), ("extension", PyVal.str ".txt")] "alice" rfl).1
    { id := "f1#chunk0", values := [1],
      metadata := [("text", PyVal.str "hello"), ("file_id", PyVal.str "f1"),
        ("filename", PyVal.str "a.txt"), ("user_id", PyVal.str "alice"),
        ("extension", PyVal.str ".txt")] }
    (List.mem_cons_self _ _)

/-! ### Helper lemmas for the sanitization policy -/

lemma sanitizeField_val_pinecone (k : String) (v w : PyVal)
    (h : sanitizeField k v = some (some w)) : isPineconeVal w = true := by
  by_cases hex : k ∈ excludeFields
  · simp [sanitizeField, hex] at h
  · cases v with
    | pynone => simp [sanitizeField, hex] at h
    | str s =>
      simp [sanitizeField, hex] at h
      subst h; rfl
    | int n =>
      simp [sanitizeField, hex] at h
      subst h; rfl
    | float q =>
      simp [sanitizeField, hex] at h
      subst h; rfl
    | bool b =>
      simp [sanitizeField, hex] at h
      subst h; rfl
    | list es =>
      by_cases hall : ∀ x ∈ es, x.isStr = true
      · simp [sanitizeField, hex] at h
        rw [if_pos hall] at h
        cases h
        simpa [isPineconeVal] using hall
      · by_cases hjf : k ∈ jsonFields
        · cases hd : jsonDumps (.list es) with
          | none => simp [sanitizeField, hex, hall, hjf, hd] at h
          | some s =>
            simp [sanitizeField, hex, hall, hjf, hd] at h
            subst h; rfl
        · simp [sanitizeField, hex, hall, hjf] at h
    | dict kvs =>
      by_cases hjf : k ∈ jsonFields
      · cases hd : jsonDumps (.dict kvs) with
        | none => simp [sanitizeField, hex, hjf, hd] at h
        | some s =>
          simp [sanitizeField, hex, hjf, hd] at h
          subst h; rfl
      · simp [sanitizeField, hex, hjf] at h
    | other reprOk rep =>
      cases reprOk with
      | true =>
        simp [sanitizeField, hex] at h
        subst h; rfl
      | false => simp [sanitizeField, hex] at h

lemma sanitize_vals_pinecone :
    ∀ (m out : List (String × PyVal)), sanitize_metadata m = some out →
      ∀ p ∈ out, isPineconeVal p.2 = true := by
  intro m
  induction m with
  | nil => intro out h p hp; cases h; cases hp
  | cons q rest ih =>
    intro out h p hp
    rcases q with ⟨k₁, v₁⟩
    simp only [sanitize_metadata] at h
    cases hf : sanitizeField k₁ v₁ with
    | none => rw [hf] at h; cases h
    | some w =>
      rw [hf] at h
      cases w with
      | none => exact ih out h p hp
      | some w' =>
        cases hrest : sanitize_metadata rest with
        | none => rw [hrest] at h; cases h
        | some out' =>
          rw [hrest] at h
          cases h
          rcases List.mem_cons.mp hp with hp | hp
          · subst hp
            exact sanitizeField_val_pinecone k₁ v₁ w' hf
          · exact ih out' hrest p hp

lemma lookup_none_of_not_mem_keys :
    ∀ (l : List (String × PyVal)) (k : String), k ∉ l.map Prod.fst →
      List.lookup k l = none := by
  intro l
  induction l with
  | nil => intro k _; rfl
  | cons p rest ih =>
    intro k hk
    rcases p with ⟨k₁, v₁⟩
    have hne : k ≠ k₁ := by
      intro hkk
      exact hk (by simp [hkk])
    have hmem : k ∉ rest.map Prod.fst := by
      intro hm
      exact hk (by simp [hm])
    rw [List.lookup_cons, beq_eq_false_iff_ne.mpr hne]
    exact ih k hmem

lemma lookup_none_of_sanitize :
    ∀ (m out : List (String × PyVal)) (k : String), sanitize_metadata m = some out →
      List.lookup k m = none → List.lookup k out = none := by
  intro m
  induction m with
  | nil => intro out k h _; cases h; rfl
  | cons p rest ih =>
    intro out k h hl
    rcases p with ⟨k₁, v₁⟩
    have hne : (k == k₁) = false := by
      cases hb : (k == k₁) with
      | true => rw [List.lookup_cons, hb] at hl; cases hl
      | false => rfl
    rw [List.lookup_cons, hne] at hl
    simp only [sanitize_metadata] at h
    cases hf : sanitizeField k₁ v₁ with
    | none => rw [hf] at h; cases h
    | some w =>
      rw [hf] at h
      cases w with
      | none => exact ih out k h hl
      | some w' =>
        cases hrest : sanitize_metadata rest with
        | none => rw [hrest] at h; cases h
        | some out' =>
          rw [hrest] at h
          cases h
          rw [List.lookup_cons, hne]
          exact ih out' k hrest hl

lemma sanitize_lookup_corr :
    ∀ (m out : List (String × PyVal)), (m.map Prod.fst).Nodup →
      sanitize_metadata m = some out →
      ∀ (k : String) (v : PyVal), List.lookup k m = some v →
        ∃ w, sanitizeField k v = some w ∧ List.lookup k out = w := by
  intro m
  induction m with
  | nil => intro out _ _ k v hl; cases hl
  | cons p rest ih =>
    intro out hnd hs k v hl
    rcases p with ⟨k₁, v₁⟩
    have hnd0 : (k₁ :: rest.map Prod.fst).Nodup := by simpa using hnd
    have hnd' : (k₁ ∉ rest.map Prod.fst) ∧ (rest.map Prod.fst).Nodup :=
      List.nodup_cons.mp hnd0
    simp only [sanitize_metadata] at hs
    by_cases hk : k = k₁
    · subst hk
      have hv : v₁ = v := by
        rw [List.lookup_cons, beq_self_eq_true k] at hl
        exact Option.some.inj hl
      subst hv
      cases hf : sanitizeField k v₁ with
      | none => rw [hf] at hs; cases hs
      | some w =>
        rw [hf] at hs
        cases w with
        | none =>
          refine ⟨none, rfl, ?_⟩
          exact lookup_none_of_sanitize rest out k hs
            (lookup_none_of_not_mem_keys rest k hnd'.1)
        | some w' =>
          cases hrest : sanitize_metadata rest with
          | none => rw [hrest] at hs; cases hs
          | some out' =>
            rw [hrest] at hs
            cases hs
            exact ⟨some w', rfl, by rw [List.lookup_cons, beq_self_eq_true k]⟩
    · have hne : (k == k₁) = false := beq_eq_false_iff_ne.mpr hk
      rw [List.lookup_cons, hne] at hl
      cases hf : sanitizeField k₁ v₁ with
      | none => rw [hf] at hs; cases hs
      | some w =>
        rw [hf] at hs
        cases w with
        | none => exact ih out hnd'.2 hs k v hl
        | some w' =>
          cases hrest : sanitize_metadata rest with
          | none => rw [hrest] at hs; cases hs
          | some out' =>
            rw [hrest] at hs
            cases hs
            obtain ⟨w, hw, hlook⟩ := ih out' hnd'.2 hrest k v hl
            exact ⟨w, hw, by rw [List.lookup_cons, hne]; exact hlook⟩

/-- Counterexample to claim C6. A value of a type outside
string/number/boolean/list/dict (modelled by `PyVal.other`) whose `str()`
conversion succeeds is kept as that string conversion even though its key is
NOT on the complex-allowlist — so a non-conforming raw value is neither
absent after sanitization nor JSON-serialized-iff-allowlisted, refuting the
claimed iff. -/
theorem c6_counterexample :
    sanitize_metadata [("k", PyVal.other true "x")] = some [("k", PyVal.str "x")] ∧
    ("k" ∈ jsonFields → False) ∧
    isPineconeVal (PyVal.other true "x") = false :=
  ⟨rfl, by decide, rfl⟩

/-- Claim C6 as amended. For every metadata dict (duplicate-free keys) on
which `_sanitize_metadata` returns: (1) every value in the output is a
string, number, boolean, or list of strings; and (2) per input field —
excluded keys are always dropped; conforming values pass through unchanged;
`None` is dropped; a list that is not all-strings and a dict are
JSON-serialized exactly when the key is on the complex-allowlist and dropped
otherwise; and a value of any other type is kept as its string conversion
when `str()` succeeds (regardless of the allowlist) and dropped when it
fails. -/
theorem c6_sanitize_policy (m out : List (String × PyVal))
    (hnd : (m.map Prod.fst).Nodup) (hs : sanitize_metadata m = some out) :
    (∀ p ∈ out, isPineconeVal p.2 = true) ∧
    (∀ k v, List.lookup k m = some v →
      (k ∈ excludeFields → List.lookup k out = none) ∧
      (k ∉ excludeFields →
        ((isPineconeVal v = true → List.lookup k out = some v) ∧
         (v = PyVal.pynone → List.lookup k out = none) ∧
         (∀ es, v = PyVal.list es → es.all PyVal.isStr = false →
            (k ∈ jsonFields →
              ∃ s, jsonDumps v = some s ∧ List.lookup k out = some (PyVal.str s)) ∧
            (k ∉ jsonFields → List.lookup k out = none)) ∧
         (∀ kvs, v = PyVal.dict kvs →
            (k ∈ jsonFields →
              ∃ s, jsonDumps v = some s ∧ List.lookup k out = some (PyVal.str s)) ∧
            (k ∉ jsonFields → List.lookup k out = none)) ∧
         (∀ ro rep, v = PyVal.other ro rep →
            List.lookup k out = (if ro then some (PyVal.str rep) else none))))) := by
  refine ⟨sanitize_vals_pinecone m out hs, ?_⟩
  intro k v hl
  obtain ⟨w, hw, hlook⟩ := sanitize_lookup_corr m out hnd hs k v hl
  constructor
  · intro hexm
    have hcomp : sanitizeField k v = some none := by simp [sanitizeField, hexm]
    rw [hcomp] at hw
    cases hw
    exact hlook
  · intro hexm
    refine ⟨?_, ?_, ?_, ?_, ?_⟩
    · intro hpv
      have hcomp : sanitizeField k v = some (some v) := by
        cases v with
        | str s => simp [sanitizeField, hexm]
        | int n => simp [sanitizeField, hexm]
        | float q => simp [sanitizeField, hexm]
        | bool b => simp [sanitizeField, hexm]
        | list es =>
          have hall : ∀ x ∈ es, x.isStr = true := by
            simpa [isPineconeVal] using hpv
          simp [sanitizeField, hexm]
          intro x hx hfalse
          rw [hall x hx] at hfalse
          cases hfalse
        | pynone => simp [isPineconeVal] at hpv
        | dict kvs => simp [isPineconeVal] at hpv
        | other a b => simp [isPineconeVal] at hpv
      rw [hcomp] at hw
      cases hw
      exact hlook
    · rintro rfl
      have hcomp : sanitizeField k PyVal.pynone = some none := by
        simp [sanitizeField, hexm]
      rw [hcomp] at hw
      cases hw
      exact hlook
    · rintro es rfl hallf
      have hallm : ¬∀ x ∈ es, x.isStr = true := by simpa using hallf
      constructor
      · intro hjf
        cases hd : jsonDumps (PyVal.list es) with
        | none =>
          have hcomp : sanitizeField k (PyVal.list es) = none := by
            simp [sanitizeField, hexm, hallm, hjf, hd]
          rw [hcomp] at hw
          cases hw
        | some s =>
          have hcomp : sanitizeField k (PyVal.list es) = some (some (PyVal.str s)) := by
            simp [sanitizeField, hexm, hallm, hjf, hd]
          rw [hcomp] at hw
          cases hw
          exact ⟨s, rfl, hlook⟩
      · intro hjf
        have hcomp : sanitizeField k (PyVal.list es) = some none := by
          simp [sanitizeField, hexm, hallm, hjf]
        rw [hcomp] at hw
        cases hw
        exact hlook
    · rintro kvs rfl
      constructor
      · intro hjf
        cases hd : jsonDumps (PyVal.dict kvs) with
        | none =>
          have hcomp : sanitizeField k (PyVal.dict kvs) = none := by
            simp [sanitizeField, hexm, hjf, hd]
          rw [hcomp] at hw
          cases hw
        | some s =>
          have hcomp : sanitizeField k (PyVal.dict kvs) = some (some (PyVal.str s)) := by
            simp [sanitizeField, hexm, hjf, hd]
          rw [hcomp] at hw
          cases hw
          exact ⟨s, rfl, hlook⟩
      · intro hjf
        have hcomp : sanitizeField k (PyVal.dict kvs) = some none := by
          simp [sanitizeField, hexm, hjf]
        rw [hcomp] at hw
        cases hw
        exact hlook
    · rintro ro rep rfl
      cases ro with
      | true =>
        have hcomp : sanitizeField k (PyVal.other true rep) = some (some (PyVal.str rep)) := by
          simp [sanitizeField, hexm]
        rw [hcomp] at hw
        cases hw
        simpa using hlook
      | false =>
        have hcomp : sanitizeField k (PyVal.other false rep) = some none := by
          simp [sanitizeField, hexm]
        rw [hcomp] at hw
        cases hw
        simpa using hlook

/-- Witness for C6 (amended) at a concrete metadata dict with an excluded
field: the surviving output entry's value is schema-conforming. -/
theorem c6_sanitize_policy_witness : isPineconeVal (PyVal.str "u") = true :=
  (c6_sanitize_policy [("user_id", PyVal.str "u"), ("coordinates", PyVal.int 5)]
    [("user_id", PyVal.str "u")] (by decide) rfl).1
    ("user_id", PyVal.str "u") (List.mem_cons_self _ _)
